import Mathlib

/-!
# Verification of the `ci-status` aggregation and rendering core

Shallow embedding of `src/commands/ci_status.go` (package `commands` of
`bbutkovic/hub`): the CI-status severity table, the aggregation fold, the
exit-code mapping, the display-rank stable sort used by the verbose
renderer, the marker/color table, the placeholder map, and the effective
template selection.

Go slices of `github.CIStatus` become Lean lists of the structure
`CIStatus`; the in-place `sort.SliceStable` call is modelled by a stable
sort whose result we also return explicitly (the content of the caller's
slice after the call).
-/

namespace CiStatusGo

/-- One CI status record, after `github.CIStatus` (`src/commands/ci_status.go`
uses fields `State`, `Context` — the check name — and `TargetUrl`). -/
structure CIStatus where
  state : String
  context : String
  targetUrl : String
deriving DecidableEq, Repr

/-- The fixed severity list set up in `init()` (lines 69–78). -/
def severityList : List String :=
  ["neutral", "success", "pending", "cancelled", "timed_out",
   "action_required", "failure", "error"]

/-- The indexed linear scan inside `checkSeverity` (lines 82–86): return the
index `i` of the first element equal to the target, `-1` if absent. -/
def severityScan : List String → Int → String → Int
  | [], _, _ => -1
  | s :: rest, i, target => if s = target then i else severityScan rest (i + 1) target

/-- `checkSeverity` (lines 81–88): position of the state in `severityList`,
or `-1` when the state is not recognized. -/
def checkSeverity (targetState : String) : Int :=
  severityScan severityList 0 targetState

/-- The body of the aggregation loop of `ciStatus` (lines 130–134): replace
the accumulator whenever the current status has strictly greater severity. -/
def aggStep (state : String) (status : CIStatus) : String :=
  if checkSeverity status.state > checkSeverity state then status.state else state

/-- The aggregation fold of `ciStatus` (lines 128–135): starting from the
empty string, fold `aggStep` over the statuses.  The Go code guards the
loop with `len(response.Statuses) > 0`; the loop body over an empty slice
does nothing, so the guard is kept verbatim. -/
def aggregateState (statuses : List CIStatus) : String :=
  if statuses.length > 0 then statuses.foldl aggStep "" else ""

/-- The `switch state` exit-code mapping of `ciStatus` (lines 137–147). -/
def exitCode (state : String) : Nat :=
  if state = "success" ∨ state = "neutral" then 0
  else if state = "failure" ∨ state = "error" ∨ state = "action_required" ∨
      state = "cancelled" ∨ state = "timed_out" then 1
  else if state = "pending" then 2
  else 3

/-- `stateRank` (lines 271–280): display rank used only by the verbose
renderer's sort. -/
def stateRank (state : String) : Nat :=
  if state = "failure" ∨ state = "error" ∨ state = "action_required" ∨
      state = "cancelled" ∨ state = "timed_out" then 1
  else if state = "success" ∨ state = "neutral" then 3
  else 2

/-- The `contextWidth` loop of `ciVerboseFormat` (lines 166–171): the
maximum check-name length, 0 for an empty list.  Go's `len` on a string is
modelled by `String.length`. -/
def contextWidth (statuses : List CIStatus) : Nat :=
  statuses.foldl
    (fun w status => if status.context.length > w then status.context.length else w) 0

/-- Stable insertion of one status into a list already sorted by
`stateRank`: the new element goes in front of the first element of equal or
greater rank, so among equal ranks an element inserted earlier from the left
of the input ends up first.  Helper for `sortedStatuses`. -/
def insertRank (x : CIStatus) : List CIStatus → List CIStatus
  | [] => [x]
  | y :: ys =>
    if stateRank x.state ≤ stateRank y.state then x :: y :: ys
    else y :: insertRank x ys

/-- The `sort.SliceStable` call of `ciVerboseFormat` (lines 173–175): a
stable sort of the statuses by ascending `stateRank`.  `sort.SliceStable`
with the strict comparator `stateRank a < stateRank b` is exactly the
stable sort for the total preorder `stateRank a ≤ stateRank b`; it is
modelled by stable insertion sort, and `sortedStatuses_eq_filter` below
proves the canonical characterization (rank-1 bucket, then rank-2, then
rank-3, each in input order) that every stable sort of a 3-valued key
satisfies.  Go sorts the slice in place; the sorted list is the content of
the caller's slice after the call. -/
def sortedStatuses : List CIStatus → List CIStatus
  | [] => []
  | x :: xs => insertRank x (sortedStatuses xs)

/-- The `switch status.State` of `ciVerboseFormat` (lines 177–193): the
state marker glyph and ANSI color number.  Go declares `var color int` and
`var stateMarker string`, so the fall-through case leaves the zero values
`0` and `""`. -/
def stateMarkerColor (state : String) : String × Nat :=
  if state = "success" then ("✔︎", 32)
  else if state = "failure" ∨ state = "error" ∨ state = "action_required" ∨
      state = "cancelled" ∨ state = "timed_out" then ("✖︎", 31)
  else if state = "neutral" then ("◦", 30)
  else if state = "pending" then ("●", 33)
  else ("", 0)

/-- The placeholder map built for one status (lines 195–204). -/
structure Placeholders where
  S : String
  sC : String
  t : String
  U : String
deriving DecidableEq, Repr

/-- `fmt.Sprintf("\033[%dm", color)` (line 203). -/
def ansiEscape (color : Nat) : String :=
  "\x1b[" ++ toString color ++ "m"

/-- Lines 195–204: `S`, `t`, `U` come from the status; `sC` starts empty and
is overwritten with `fmt.Sprintf("\033[%dm", color)` whenever `colorize`
is set (the `switch` has no default, so an unrecognized state leaves
`color = 0`). -/
def checkPlaceholders (status : CIStatus) (colorize : Bool) : Placeholders :=
  { S := status.state
    sC := if colorize then ansiEscape (stateMarkerColor status.state).2 else ""
    t := status.context
    U := status.targetUrl }

/-- Lines 206–213: the effective template for one status — the
user-supplied format verbatim when non-empty, otherwise one of the two
built-ins chosen by whether `TargetUrl` is empty. -/
def effectiveFormat (formatString : String) (stateMarker : String)
    (width : Nat) (targetUrl : String) : String :=
  if formatString = "" then
    if targetUrl = "" then
      "%sC" ++ stateMarker ++ "%Creset\t%t\n"
    else
      "%sC" ++ stateMarker ++ "%Creset\t%<(" ++ toString width ++ ")%t\t%U\n"
  else formatString

/-- `ciVerboseFormat` (lines 165–216).  The template-expansion engine
`ui.Expand` is an external collaborator, so the renderer is modelled down
to its inputs: for each status, in sorted order, the pair of the effective
template and the placeholder map passed to `ui.Expand`.  The second
component is the content of the caller's slice after the call (the
in-place `sort.SliceStable` reordered it). -/
def ciVerboseFormat (statuses : List CIStatus) (formatString : String)
    (colorize : Bool) : List (String × Placeholders) × List CIStatus :=
  let width := contextWidth statuses
  let sorted := sortedStatuses statuses
  (sorted.map (fun status =>
      (effectiveFormat formatString (stateMarkerColor status.state).1 width
        status.targetUrl,
       checkPlaceholders status colorize)),
   sorted)

/-- The post-fetch tail of `ciStatus` (lines 128–161): aggregate, map to an
exit code, then either render verbosely (when verbose was requested and the
list is non-empty) or print the single line `state` / `"no status"`.
Returns the printed single lines, the verbose report, and the exit code. -/
def ciStatusRun (statuses : List CIStatus) (verbose : Bool)
    (formatString : String) (colorize : Bool) :
    List String × List (String × Placeholders) × Nat :=
  let state := aggregateState statuses
  let code := exitCode state
  if verbose ∧ statuses.length > 0 then
    ([], (ciVerboseFormat statuses formatString colorize).1, code)
  else if state ≠ "" then
    ([state], [], code)
  else
    (["no status"], [], code)

/-- Proof-side helper: the maximum severity occurring in a status list,
`-1` when no recognized state occurs (the severity of the initial
accumulator `""`). -/
def bestSev (statuses : List CIStatus) : Int :=
  statuses.foldl (fun m status => max m (checkSeverity status.state)) (-1)

/-- Proof-side helper: the state string determined by a severity value —
`""` for `-1`, the entry of `severityList` otherwise. -/
def stateOfSev (i : Int) : String :=
  if i < 0 then "" else severityList.getD i.toNat ""

/-! ## Severity lemmas -/

/-- `checkSeverity` written out as a decision chain over the eight
recognized states, in scan order. -/
lemma checkSeverity_eq (s : String) :
    checkSeverity s =
      if s = "neutral" then 0 else if s = "success" then 1
      else if s = "pending" then 2 else if s = "cancelled" then 3
      else if s = "timed_out" then 4 else if s = "action_required" then 5
      else if s = "failure" then 6 else if s = "error" then 7 else -1 := by
  simp only [checkSeverity, severityList, severityScan, eq_comm]
  norm_num

lemma checkSeverity_ge (s : String) : -1 ≤ checkSeverity s := by
  rw [checkSeverity_eq]; split_ifs <;> norm_num

lemma checkSeverity_le (s : String) : checkSeverity s ≤ 7 := by
  rw [checkSeverity_eq]; split_ifs <;> norm_num

lemma checkSeverity_empty : checkSeverity "" = -1 := by decide

lemma checkSeverity_eq_neg_one_iff (s : String) :
    checkSeverity s = -1 ↔ s ∉ severityList := by
  rw [checkSeverity_eq]
  simp only [severityList]
  split_ifs with h1 h2 h3 h4 h5 h6 h7 h8 <;> simp_all

lemma checkSeverity_nonneg_iff (s : String) :
    0 ≤ checkSeverity s ↔ s ∈ severityList := by
  rcases (checkSeverity_ge s).lt_or_eq.symm with h | h
  · rw [← h]
    simp only [iff_false_intro ((checkSeverity_eq_neg_one_iff s).mp h.symm)]
    norm_num
  · have h' : 0 ≤ checkSeverity s := by omega
    simp only [h', true_iff]
    by_contra hmem
    exact absurd ((checkSeverity_eq_neg_one_iff s).mpr hmem) (by omega)

/-- A nonnegative severity value determines its state string. -/
lemma stateOfSev_checkSeverity (s : String) (h : 0 ≤ checkSeverity s) :
    stateOfSev (checkSeverity s) = s := by
  rw [checkSeverity_eq] at h ⊢
  split_ifs at h ⊢ with h1 h2 h3 h4 h5 h6 h7 h8 <;>
    first
      | (subst_vars; rfl)
      | omega

lemma stateOfSev_neg {i : Int} (h : i < 0) : stateOfSev i = "" := by
  simp [stateOfSev, h]

lemma stateOfSev_ne_empty {i : Int} (h0 : 0 ≤ i) (h7 : i ≤ 7) :
    stateOfSev i ≠ "" := by
  interval_cases i <;> decide

/-! ## Aggregation-fold lemmas -/

/-- Characterization of the aggregation fold from an arbitrary
accumulator: either no status beats the accumulator and it survives, or
the result is the state of the first status attaining the maximal
severity (everything before it is strictly less severe, everything after
it at most as severe). -/
lemma foldl_aggStep_spec (l : List CIStatus) (a : String) :
    (l.foldl aggStep a = a ∧ ∀ c ∈ l, checkSeverity c.state ≤ checkSeverity a) ∨
    (∃ l₁ c l₂, l = l₁ ++ c :: l₂ ∧ l.foldl aggStep a = c.state ∧
      checkSeverity a < checkSeverity c.state ∧
      (∀ d ∈ l₁, checkSeverity d.state < checkSeverity c.state) ∧
      (∀ d ∈ l₂, checkSeverity d.state ≤ checkSeverity c.state)) := by
  induction l generalizing a with
  | nil => exact Or.inl ⟨rfl, by simp⟩
  | cons x xs ih =>
    by_cases h : checkSeverity x.state > checkSeverity a
    · have hstep : aggStep a x = x.state := by simp [aggStep, h]
      rw [List.foldl_cons, hstep]
      rcases ih x.state with ⟨heq, hall⟩ | ⟨l₁, c, l₂, hsplit, heq, hlt, hbefore, hafter⟩
      · exact Or.inr ⟨[], x, xs, by simp, heq, h, by simp, hall⟩
      · refine Or.inr ⟨x :: l₁, c, l₂, by simp [hsplit], heq, h.trans hlt, ?_, hafter⟩
        intro d hd
        rcases List.mem_cons.mp hd with rfl | hd
        · exact hlt
        · exact hbefore d hd
    · push_neg at h
      have hstep : aggStep a x = a := by simp [aggStep]; omega
      rw [List.foldl_cons, hstep]
      rcases ih a with ⟨heq, hall⟩ | ⟨l₁, c, l₂, hsplit, heq, hlt, hbefore, hafter⟩
      · refine Or.inl ⟨heq, ?_⟩
        intro c hc
        rcases List.mem_cons.mp hc with rfl | hc
        · exact h
        · exact hall c hc
      · refine Or.inr ⟨x :: l₁, c, l₂, by simp [hsplit], heq, hlt, ?_, hafter⟩
        intro d hd
        rcases List.mem_cons.mp hd with rfl | hd
        · exact h.trans_lt hlt
        · exact hbefore d hd

/-- The aggregation fold tracks the running maximum severity: from a
severity-faithful accumulator, the result is the state determined by the
maximum of the accumulator's severity and all input severities. -/
lemma foldl_aggStep_stateOfSev (l : List CIStatus) (a : String)
    (ha : stateOfSev (checkSeverity a) = a) :
    l.foldl aggStep a =
      stateOfSev (l.foldl (fun m status => max m (checkSeverity status.state))
        (checkSeverity a)) := by
  induction l generalizing a with
  | nil => exact ha.symm
  | cons x xs ih =>
    rw [List.foldl_cons, List.foldl_cons]
    by_cases h : checkSeverity x.state > checkSeverity a
    · have hstep : aggStep a x = x.state := by simp [aggStep, h]
      have hmax : max (checkSeverity a) (checkSeverity x.state) =
          checkSeverity x.state := max_eq_right h.le
      have hx : stateOfSev (checkSeverity x.state) = x.state :=
        stateOfSev_checkSeverity _ (by have := checkSeverity_ge a; omega)
      rw [hstep, hmax, ih x.state hx]
    · push_neg at h
      have hstep : aggStep a x = a := by simp [aggStep]; omega
      have hmax : max (checkSeverity a) (checkSeverity x.state) =
          checkSeverity a := max_eq_left h
      rw [hstep, hmax, ih a ha]

/-- `aggregateState` is the state determined by the maximal severity in
the input. -/
lemma aggregateState_eq_stateOfSev (l : List CIStatus) :
    aggregateState l = stateOfSev (bestSev l) := by
  rcases l with _ | ⟨x, xs⟩
  · simp [aggregateState, bestSev, stateOfSev]
  · have h := foldl_aggStep_stateOfSev (x :: xs) ""
      (by rw [checkSeverity_empty]; rfl)
    rw [checkSeverity_empty] at h
    simpa [aggregateState, bestSev] using h

lemma le_bestSev (l : List CIStatus) :
    ∀ c ∈ l, checkSeverity c.state ≤ bestSev l := by
  have key : ∀ (l : List CIStatus) (m : Int),
      (m ≤ l.foldl (fun m status => max m (checkSeverity status.state)) m) ∧
      (∀ c ∈ l, checkSeverity c.state ≤
        l.foldl (fun m status => max m (checkSeverity status.state)) m) := by
    intro l
    induction l with
    | nil => simp
    | cons x xs ih =>
      intro m
      constructor
      · exact le_trans (le_max_left _ _) (ih _).1
      · intro c hc
        rcases List.mem_cons.mp hc with rfl | hc
        · exact le_trans (le_max_right _ _) (ih _).1
        · exact (ih _).2 c hc
  exact (key l (-1)).2

lemma bestSev_ge (l : List CIStatus) : -1 ≤ bestSev l := by
  have key : ∀ (l : List CIStatus) (m : Int),
      m ≤ l.foldl (fun m status => max m (checkSeverity status.state)) m := by
    intro l
    induction l with
    | nil => simp
    | cons x xs ih => exact fun m => le_trans (le_max_left _ _) (ih _)
  exact key l (-1)

lemma bestSev_le (l : List CIStatus) : bestSev l ≤ 7 := by
  have key : ∀ (l : List CIStatus) (m : Int), m ≤ 7 →
      l.foldl (fun m status => max m (checkSeverity status.state)) m ≤ 7 := by
    intro l
    induction l with
    | nil => exact fun m h => by simpa using h
    | cons x xs ih =>
      intro m hm
      exact ih _ (max_le hm (checkSeverity_le _))
  exact key l (-1) (by norm_num)

lemma bestSev_of_forall_unrecognized (l : List CIStatus)
    (h : ∀ c ∈ l, checkSeverity c.state = -1) : bestSev l = -1 := by
  have key : ∀ (l : List CIStatus) (m : Int),
      (∀ c ∈ l, checkSeverity c.state ≤ m) →
      l.foldl (fun m status => max m (checkSeverity status.state)) m = m := by
    intro l
    induction l with
    | nil => simp
    | cons x xs ih =>
      intro m hm
      have hx : max m (checkSeverity x.state) = m :=
        max_eq_left (hm x (List.mem_cons_self x xs))
      rw [List.foldl_cons, hx]
      exact ih m (fun c hc => hm c (List.mem_cons_of_mem x hc))
  exact key l (-1) (fun c hc => (h c hc).le)

/-- The running-maximum fold is invariant under permutation of the input. -/
lemma foldl_max_perm {l₁ l₂ : List CIStatus} (h : l₁.Perm l₂) (m : Int) :
    l₁.foldl (fun m status => max m (checkSeverity status.state)) m =
      l₂.foldl (fun m status => max m (checkSeverity status.state)) m := by
  induction h generalizing m with
  | nil => rfl
  | cons x _ ih => exact ih _
  | swap x y l =>
    simp only [List.foldl_cons]
    rw [sup_right_comm]
  | trans _ _ ih₁ ih₂ => exact (ih₁ m).trans (ih₂ m)

lemma bestSev_perm {l₁ l₂ : List CIStatus} (h : l₁.Perm l₂) :
    bestSev l₁ = bestSev l₂ :=
  foldl_max_perm h (-1)

/-- Shared helper: the aggregated overall state is invariant under
permutation of the status list. -/
lemma aggregateState_perm {l₁ l₂ : List CIStatus} (h : l₁.Perm l₂) :
    aggregateState l₁ = aggregateState l₂ := by
  rw [aggregateState_eq_stateOfSev, aggregateState_eq_stateOfSev,
    bestSev_perm h]

/-- Shared helper: the aggregate is the empty string exactly when no
status carries a recognized state. -/
lemma aggregateState_eq_empty_iff (l : List CIStatus) :
    aggregateState l = "" ↔ ∀ c ∈ l, c.state ∉ severityList := by
  rw [aggregateState_eq_stateOfSev]
  constructor
  · intro h c hc hmem
    have h0 : 0 ≤ checkSeverity c.state :=
      (checkSeverity_nonneg_iff _).mpr hmem
    have hb : 0 ≤ bestSev l := le_trans h0 (le_bestSev l c hc)
    exact stateOfSev_ne_empty hb (bestSev_le l) h
  · intro h
    have : bestSev l = -1 := by
      refine bestSev_of_forall_unrecognized l (fun c hc => ?_)
      exact (checkSeverity_eq_neg_one_iff _).mpr (h c hc)
    rw [this]
    exact stateOfSev_neg (by norm_num)

/-! ## Display-rank sort lemmas -/

lemma stateRank_cases (s : String) :
    stateRank s = 1 ∨ stateRank s = 2 ∨ stateRank s = 3 := by
  unfold stateRank
  split_ifs <;> simp

lemma one_le_stateRank (s : String) : 1 ≤ stateRank s := by
  rcases stateRank_cases s with h | h | h <;> omega

lemma insertRank_perm (x : CIStatus) (l : List CIStatus) :
    (insertRank x l).Perm (x :: l) := by
  induction l with
  | nil => exact List.Perm.refl _
  | cons y ys ih =>
    unfold insertRank
    split_ifs
    · exact List.Perm.refl _
    · exact (List.Perm.cons y ih).trans (List.Perm.swap x y ys)

lemma sortedStatuses_perm (l : List CIStatus) :
    (sortedStatuses l).Perm l := by
  induction l with
  | nil => exact List.Perm.refl _
  | cons x xs ih =>
    exact (insertRank_perm x (sortedStatuses xs)).trans (List.Perm.cons x ih)

/-- Filters by an exact rank value pass through stable insertion
unchanged: inserting `x` commutes with consing `x` in front, as far as any
single rank bucket can see. -/
lemma filter_insertRank (x : CIStatus) (r : Nat) (l : List CIStatus) :
    (insertRank x l).filter (fun c => stateRank c.state == r) =
      (x :: l).filter (fun c => stateRank c.state == r) := by
  induction l with
  | nil => rfl
  | cons y ys ih =>
    unfold insertRank
    split_ifs with hle
    · rfl
    · push_neg at hle
      by_cases hy : stateRank y.state = r
      · have hx : ¬ stateRank x.state = r := by omega
        simp [List.filter_cons, ih, hy, hx]
      · simp [List.filter_cons, ih, hy]

lemma filter_sortedStatuses (r : Nat) (l : List CIStatus) :
    (sortedStatuses l).filter (fun c => stateRank c.state == r) =
      l.filter (fun c => stateRank c.state == r) := by
  induction l with
  | nil => rfl
  | cons x xs ih =>
    rw [sortedStatuses, filter_insertRank]
    simp only [List.filter_cons]
    rw [ih]

lemma insertRank_append_of_lt (x : CIStatus) (A B : List CIStatus)
    (h : ∀ a ∈ A, stateRank a.state < stateRank x.state) :
    insertRank x (A ++ B) = A ++ insertRank x B := by
  induction A with
  | nil => rfl
  | cons a A' ih =>
    have ha : ¬ (stateRank x.state ≤ stateRank a.state) := by
      have := h a (List.mem_cons_self a A')
      omega
    simp only [List.cons_append, insertRank, if_neg ha, List.append_eq]
    rw [ih (fun a ha => h a (List.mem_cons_of_mem _ ha))]

lemma insertRank_eq_cons (x : CIStatus) (B : List CIStatus)
    (h : ∀ b ∈ B, stateRank x.state ≤ stateRank b.state) :
    insertRank x B = x :: B := by
  cases B with
  | nil => rfl
  | cons b bs =>
    simp only [insertRank, if_pos (h b (List.mem_cons_self b bs))]

/-- The canonical characterization of the stable display sort: the rank-1
bucket, then the rank-2 bucket, then the rank-3 bucket, each in input
order.  Every stable sort of a key with values in `{1, 2, 3}` produces
exactly this list. -/
lemma sortedStatuses_eq_filter (l : List CIStatus) :
    sortedStatuses l =
      l.filter (fun c => stateRank c.state == 1) ++
      l.filter (fun c => stateRank c.state == 2) ++
      l.filter (fun c => stateRank c.state == 3) := by
  induction l with
  | nil => rfl
  | cons x xs ih =>
    have mem_rank : ∀ (r : Nat) (c : CIStatus),
        c ∈ xs.filter (fun c => stateRank c.state == r) → stateRank c.state = r := by
      intro r c hc
      have := List.of_mem_filter hc
      simpa using this
    rw [sortedStatuses, ih]
    rcases stateRank_cases x.state with h | h | h
    · have hfront : insertRank x
          (xs.filter (fun c => stateRank c.state == 1) ++
           xs.filter (fun c => stateRank c.state == 2) ++
           xs.filter (fun c => stateRank c.state == 3)) =
          x :: (xs.filter (fun c => stateRank c.state == 1) ++
           xs.filter (fun c => stateRank c.state == 2) ++
           xs.filter (fun c => stateRank c.state == 3)) := by
        refine insertRank_eq_cons x _ (fun b hb => ?_)
        rw [h]
        exact one_le_stateRank _
      rw [hfront]
      simp [List.filter_cons, h]
    · have h1 : ∀ a ∈ xs.filter (fun c => stateRank c.state == 1),
          stateRank a.state < stateRank x.state := by
        intro a ha
        rw [mem_rank 1 a ha, h]
        omega
      have hfront : insertRank x
          (xs.filter (fun c => stateRank c.state == 2) ++
           xs.filter (fun c => stateRank c.state == 3)) =
          x :: (xs.filter (fun c => stateRank c.state == 2) ++
           xs.filter (fun c => stateRank c.state == 3)) := by
        refine insertRank_eq_cons x _ (fun b hb => ?_)
        rcases List.mem_append.mp hb with hb | hb
        · rw [mem_rank 2 b hb, h]
        · rw [mem_rank 3 b hb, h]
          omega
      rw [List.append_assoc, insertRank_append_of_lt x _ _ h1, hfront]
      simp [List.filter_cons, h]
    · have h12 : ∀ a ∈ xs.filter (fun c => stateRank c.state == 1) ++
          xs.filter (fun c => stateRank c.state == 2),
          stateRank a.state < stateRank x.state := by
        intro a ha
        rcases List.mem_append.mp ha with ha | ha
        · rw [mem_rank 1 a ha, h]; omega
        · rw [mem_rank 2 a ha, h]; omega
      have hfront : insertRank x (xs.filter (fun c => stateRank c.state == 3)) =
          x :: xs.filter (fun c => stateRank c.state == 3) := by
        refine insertRank_eq_cons x _ (fun b hb => ?_)
        rw [mem_rank 3 b hb, h]
      rw [insertRank_append_of_lt x _ _ h12, hfront]
      simp [List.filter_cons, h]

/-- The stable display sort is sorted by ascending rank. -/
lemma sortedStatuses_pairwise (l : List CIStatus) :
    (sortedStatuses l).Pairwise
      (fun a b => stateRank a.state ≤ stateRank b.state) := by
  rw [sortedStatuses_eq_filter]
  have mem_rank : ∀ (r : Nat) (c : CIStatus),
      c ∈ l.filter (fun c => stateRank c.state == r) → stateRank c.state = r := by
    intro r c hc
    have := List.of_mem_filter hc
    simpa using this
  have hbucket : ∀ r : Nat, (l.filter (fun c => stateRank c.state == r)).Pairwise
      (fun a b => stateRank a.state ≤ stateRank b.state) := by
    intro r
    refine List.pairwise_of_forall_mem_list (fun a ha b hb => ?_)
    rw [mem_rank r a ha, mem_rank r b hb]
  rw [List.pairwise_append]
  refine ⟨?_, hbucket 3, fun a ha b hb => ?_⟩
  · rw [List.pairwise_append]
    refine ⟨hbucket 1, hbucket 2, fun a ha b hb => ?_⟩
    rw [mem_rank 1 a ha, mem_rank 2 b hb]
    omega
  · rcases List.mem_append.mp ha with ha | ha
    · rw [mem_rank 1 a ha, mem_rank 3 b hb]; omega
    · rw [mem_rank 2 a ha, mem_rank 3 b hb]; omega

/-! ## Context-width lemmas -/

lemma contextWidth_le (l : List CIStatus) :
    ∀ c ∈ l, c.context.length ≤ contextWidth l := by
  have key : ∀ (l : List CIStatus) (a : Nat),
      (a ≤ l.foldl
        (fun w status =>
          if status.context.length > w then status.context.length else w) a) ∧
      (∀ c ∈ l, c.context.length ≤ l.foldl
        (fun w status =>
          if status.context.length > w then status.context.length else w) a) := by
    intro l
    induction l with
    | nil => simp
    | cons x xs ih =>
      intro a
      have hstep : a ≤ if x.context.length > a then x.context.length else a := by
        split_ifs <;> omega
      have hstep' : x.context.length ≤
          if x.context.length > a then x.context.length else a := by
        split_ifs <;> omega
      refine ⟨le_trans hstep (ih _).1, ?_⟩
      intro c hc
      rcases List.mem_cons.mp hc with rfl | hc
      · exact le_trans hstep' (ih _).1
      · exact (ih _).2 c hc
  exact (key l 0).2

lemma contextWidth_mem (l : List CIStatus) (h : l ≠ []) :
    ∃ c ∈ l, contextWidth l = c.context.length := by
  have key : ∀ (l : List CIStatus) (a : Nat),
      l.foldl (fun w status =>
        if status.context.length > w then status.context.length else w) a = a ∨
      ∃ c ∈ l, l.foldl (fun w status =>
        if status.context.length > w then status.context.length else w) a =
          c.context.length := by
    intro l
    induction l with
    | nil => simp
    | cons x xs ih =>
      intro a
      by_cases hx : x.context.length > a
      · rw [List.foldl_cons, if_pos hx]
        rcases ih x.context.length with heq | ⟨c, hc, heq⟩
        · exact Or.inr ⟨x, List.mem_cons_self x xs, heq⟩
        · exact Or.inr ⟨c, List.mem_cons_of_mem x hc, heq⟩
      · rw [List.foldl_cons, if_neg hx]
        rcases ih a with heq | ⟨c, hc, heq⟩
        · exact Or.inl heq
        · exact Or.inr ⟨c, List.mem_cons_of_mem x hc, heq⟩
  rcases l with _ | ⟨x, xs⟩
  · exact absurd rfl h
  · rcases key (x :: xs) 0 with heq | ⟨c, hc, heq⟩
    · refine ⟨x, List.mem_cons_self x xs, ?_⟩
      have hle := contextWidth_le (x :: xs) x (List.mem_cons_self x xs)
      have : contextWidth (x :: xs) = 0 := heq
      omega
    · exact ⟨c, hc, heq⟩

/-! ## Claim theorems -/

/-- C1: for every non-empty sequence of check results whose states are all
recognized, the aggregation fold of `ciStatus` returns the state of the
first element attaining the maximal severity index in `severityList`:
the input splits as `l₁ ++ c :: l₂` where the result is `c`'s state, every
element before `c` is strictly less severe, and every element after `c` is
at most as severe (so severity ties keep the first-seen state). -/
theorem C1_aggregator_first_of_max_severity (l : List CIStatus) (hne : l ≠ [])
    (hrec : ∀ c ∈ l, c.state ∈ severityList) :
    ∃ l₁ c l₂, l = l₁ ++ c :: l₂ ∧ aggregateState l = c.state ∧
      (∀ d ∈ l₁, checkSeverity d.state < checkSeverity c.state) ∧
      (∀ d ∈ l₂, checkSeverity d.state ≤ checkSeverity c.state) := by
  have hlen : l.length > 0 := List.length_pos.mpr hne
  have hagg : aggregateState l = l.foldl aggStep "" := by
    simp [aggregateState, hlen]
  rcases foldl_aggStep_spec l "" with ⟨heq, hall⟩ |
    ⟨l₁, c, l₂, hsplit, heq, _, hbefore, hafter⟩
  · exfalso
    rcases l with _ | ⟨x, xs⟩
    · exact hne rfl
    · have h0 : 0 ≤ checkSeverity x.state :=
        (checkSeverity_nonneg_iff _).mpr (hrec x (List.mem_cons_self x xs))
      have hx := hall x (List.mem_cons_self x xs)
      rw [checkSeverity_empty] at hx
      omega
  · exact ⟨l₁, c, l₂, hsplit, by rw [hagg, heq], hbefore, hafter⟩

/-- Witness for C1 at a concrete input: on
`[success, failure "ci", failure "lint"]` the aggregate is the state of
the first `failure`. -/
theorem C1_aggregator_first_of_max_severity_witness :
    (([⟨"success", "build", ""⟩, ⟨"failure", "ci", ""⟩,
        ⟨"failure", "lint", ""⟩] : List CIStatus) ≠ []) ∧
    (∀ c ∈ ([⟨"success", "build", ""⟩, ⟨"failure", "ci", ""⟩,
        ⟨"failure", "lint", ""⟩] : List CIStatus), c.state ∈ severityList) ∧
    (∃ l₁ c l₂,
      ([⟨"success", "build", ""⟩, ⟨"failure", "ci", ""⟩,
        ⟨"failure", "lint", ""⟩] : List CIStatus) = l₁ ++ c :: l₂ ∧
      aggregateState [⟨"success", "build", ""⟩, ⟨"failure", "ci", ""⟩,
        ⟨"failure", "lint", ""⟩] = c.state ∧
      (∀ d ∈ l₁, checkSeverity d.state < checkSeverity c.state) ∧
      (∀ d ∈ l₂, checkSeverity d.state ≤ checkSeverity c.state)) :=
  ⟨by decide, by decide,
    C1_aggregator_first_of_max_severity _ (by decide) (by decide)⟩

/-- C2 counterexample: on the empty check list the driver prints
`"no status"` but exits with code 3, not 0 — the empty overall state falls
into the `default` branch of the exit-code switch. -/
theorem C2_empty_counterexample :
    (ciStatusRun [] false "" false).1 = ["no status"] ∧
    (ciStatusRun [] false "" false).2.2 = 3 ∧
    (ciStatusRun [] false "" false).2.2 ≠ 0 := by decide

/-- C2 (amended): when the fetched check list is empty, the program prints
the line `"no status"` and the process exits with code 3 (the empty
overall state reaches the `default: exitCode = 3` branch), for every
combination of the verbose, format and color flags. -/
theorem C2_empty_prints_no_status (verbose : Bool) (formatString : String)
    (colorize : Bool) :
    ciStatusRun [] verbose formatString colorize = (["no status"], [], 3) := by
  cases verbose <;> rfl

/-- C3 counterexample: a single check with the unrecognized state
`"unknown_state"` aggregates to the empty string (severity −1 never beats
the initial empty accumulator, also of severity −1), so the result is
empty on a non-empty input and differs from `"unknown_state"`. -/
theorem C3_unrecognized_counterexample :
    aggregateState [⟨"unknown_state", "ci", ""⟩] = "" ∧
    ([⟨"unknown_state", "ci", ""⟩] : List CIStatus) ≠ [] ∧
    aggregateState [⟨"unknown_state", "ci", ""⟩] ≠ "unknown_state" := by decide

/-- C3 (amended): the Aggregator's result is the empty string exactly when
the input contains no check with a recognized state; in particular, for an
input consisting of a single check with the unrecognized state
`"unknown_state"`, the overall state is the empty string, the driver
prints `"no status"`, and the exit code is 3. -/
theorem C3_empty_iff_no_recognized :
    (∀ l : List CIStatus,
      aggregateState l = "" ↔ ∀ c ∈ l, c.state ∉ severityList) ∧
    ciStatusRun [⟨"unknown_state", "ci", ""⟩] false "" false =
      (["no status"], [], 3) :=
  ⟨aggregateState_eq_empty_iff, by decide⟩

/-- Witness for C3 at a concrete input: a list of two unrecognized states
aggregates to the empty string. -/
theorem C3_empty_iff_no_recognized_witness :
    aggregateState [⟨"unknown_state", "ci", "u"⟩, ⟨"skipped", "x", ""⟩] = "" :=
  (C3_empty_iff_no_recognized.1 _).mpr (by decide)

/-- C4: the exit-code mapping is a total function of the overall state
(never erroring): `success` and `neutral` map to 0; `failure`, `error`,
`action_required`, `cancelled` and `timed_out` map to 1; `pending` maps to
2; and every other non-empty unrecognized state value maps to 3. -/
theorem C4_exit_code_table (s : String) :
    ((s = "success" ∨ s = "neutral") → exitCode s = 0) ∧
    ((s = "failure" ∨ s = "error" ∨ s = "action_required" ∨ s = "cancelled" ∨
      s = "timed_out") → exitCode s = 1) ∧
    (s = "pending" → exitCode s = 2) ∧
    (s ≠ "" → s ∉ severityList → exitCode s = 3) := by
  refine ⟨?_, ?_, ?_, ?_⟩
  · intro h
    unfold exitCode
    rw [if_pos h]
  · intro h
    have hne : ¬ (s = "success" ∨ s = "neutral") := by
      rcases h with h | h | h | h | h <;> subst h <;> decide
    unfold exitCode
    rw [if_neg hne, if_pos h]
  · intro h
    subst h
    decide
  · intro _ hmem
    simp only [severityList, List.mem_cons, List.not_mem_nil, or_false,
      not_or] at hmem
    obtain ⟨h1, h2, h3, h4, h5, h6, h7, h8⟩ := hmem
    simp [exitCode, h1, h2, h3, h4, h5, h6, h7, h8]

/-- Witness for C4 at concrete inputs: the unrecognized non-empty state
`"unknown_state"` exits 3, and `"pending"` exits 2. -/
theorem C4_exit_code_table_witness :
    exitCode "unknown_state" = 3 ∧ exitCode "pending" = 2 :=
  ⟨(C4_exit_code_table "unknown_state").2.2.2 (by decide) (by decide),
   (C4_exit_code_table "pending").2.2.1 rfl⟩

/-- C5: the verbose renderer sorts checks by the 3-bucket display rank —
the failing family (`failure`, `error`, `action_required`, `cancelled`,
`timed_out`) first with rank 1, `pending` and unrecognized states second
with rank 2, `success` and `neutral` last with rank 3 — ascending in the
output, and the sort is stable: for every rank value, the checks of that
rank appear in exactly their relative input order. -/
theorem C5_display_sort_stable (l : List CIStatus) :
    (sortedStatuses l).Pairwise
      (fun a b => stateRank a.state ≤ stateRank b.state) ∧
    (∀ r : Nat, (sortedStatuses l).filter (fun c => stateRank c.state == r) =
      l.filter (fun c => stateRank c.state == r)) ∧
    (∀ s : String,
      ((s = "failure" ∨ s = "error" ∨ s = "action_required" ∨ s = "cancelled" ∨
        s = "timed_out") → stateRank s = 1) ∧
      ((s = "pending" ∨ s ∉ severityList) → stateRank s = 2) ∧
      ((s = "success" ∨ s = "neutral") → stateRank s = 3)) := by
  refine ⟨sortedStatuses_pairwise l, fun r => filter_sortedStatuses r l, ?_⟩
  intro s
  refine ⟨?_, ?_, ?_⟩
  · intro h
    unfold stateRank
    rw [if_pos h]
  · rintro (h | h)
    · subst h; decide
    · simp only [severityList, List.mem_cons, List.not_mem_nil, or_false,
        not_or] at h
      obtain ⟨h1, h2, h3, h4, h5, h6, h7, h8⟩ := h
      simp [stateRank, h1, h2, h3, h4, h5, h6, h7, h8]
  · intro h
    have hne : ¬ (s = "failure" ∨ s = "error" ∨ s = "action_required" ∨
        s = "cancelled" ∨ s = "timed_out") := by
      rcases h with h | h <;> subst h <;> decide
    unfold stateRank
    rw [if_neg hne, if_pos h]

/-- Witness for C5 at concrete inputs: the three rank-table implications
instantiated, and the stability equation at rank 1 on a concrete list. -/
theorem C5_display_sort_stable_witness :
    stateRank "failure" = 1 ∧ stateRank "unknown_state" = 2 ∧
    stateRank "success" = 3 ∧
    (sortedStatuses [⟨"success", "a", ""⟩, ⟨"failure", "b", ""⟩,
        ⟨"error", "c", ""⟩]).filter
      (fun c => stateRank c.state == 1) =
      ([⟨"success", "a", ""⟩, ⟨"failure", "b", ""⟩,
        ⟨"error", "c", ""⟩] : List CIStatus).filter
        (fun c => stateRank c.state == 1) :=
  ⟨((C5_display_sort_stable []).2.2 "failure").1 (Or.inl rfl),
   ((C5_display_sort_stable []).2.2 "unknown_state").2.1 (Or.inr (by decide)),
   ((C5_display_sort_stable []).2.2 "success").2.2 (Or.inl rfl),
   (C5_display_sort_stable _).2.1 1⟩

/-- C6 counterexample: the renderer does mutate the caller-owned sequence —
`sort.SliceStable` reorders the slice in place, so after the rendering
pass the caller's sequence is no longer in its original order. -/
theorem C6_renderer_mutates_counterexample :
    (ciVerboseFormat [⟨"success", "a", ""⟩, ⟨"failure", "b", ""⟩] "" false).2 ≠
      [⟨"success", "a", ""⟩, ⟨"failure", "b", ""⟩] ∧
    (ciVerboseFormat [⟨"success", "a", ""⟩, ⟨"failure", "b", ""⟩] "" false).2 =
      [⟨"failure", "b", ""⟩, ⟨"success", "a", ""⟩] := by decide

/-- C6 (amended): the renderer reorders the caller's check sequence in
place (a stable sort by display rank), so after a rendering pass the
caller's sequence is a permutation of the original — the same elements
with unchanged content, possibly in a different order — and the
aggregated overall state is unaffected by the display reordering. -/
theorem C6_render_permutes_aggregate_unaffected (l : List CIStatus)
    (formatString : String) (colorize : Bool) :
    ((ciVerboseFormat l formatString colorize).2).Perm l ∧
    aggregateState (ciVerboseFormat l formatString colorize).2 =
      aggregateState l := by
  have hperm : ((ciVerboseFormat l formatString colorize).2).Perm l :=
    sortedStatuses_perm l
  exact ⟨hperm, aggregateState_perm hperm⟩

/-- C7 counterexample: for the unrecognized state `"unknown_state"` with
colorize enabled, the marker glyph is empty but the `sC` placeholder is
the escape `ESC[0m` (the `switch` leaves the zero value `color = 0` and
the `Sprintf` runs unconditionally), not the empty string. -/
theorem C7_unrecognized_color_counterexample :
    (stateMarkerColor "unknown_state").1 = "" ∧
    (checkPlaceholders ⟨"unknown_state", "ci", ""⟩ true).sC = "\x1b[0m" ∧
    (checkPlaceholders ⟨"unknown_state", "ci", ""⟩ true).sC ≠ "" := by decide

/-- C7 (amended): the marker glyph and `sC` placeholder follow the fixed
table — success: check mark, green `ESC[32m`; the failing family: cross,
red `ESC[31m`; neutral: small circle, black `ESC[30m`; pending: filled
circle, yellow `ESC[33m` — where `sC` is the color escape only when
colorize is enabled and empty otherwise; for any state outside this set
the glyph is empty but, because the color variable keeps its zero value,
`sC` is `ESC[0m` (not empty) whenever colorize is enabled. -/
theorem C7_marker_color_table (status : CIStatus) (colorize : Bool) :
    (status.state = "success" →
      (stateMarkerColor status.state).1 = "✔︎" ∧
      (checkPlaceholders status colorize).sC =
        if colorize then "\x1b[32m" else "") ∧
    ((status.state = "failure" ∨ status.state = "error" ∨
      status.state = "action_required" ∨ status.state = "cancelled" ∨
      status.state = "timed_out") →
      (stateMarkerColor status.state).1 = "✖︎" ∧
      (checkPlaceholders status colorize).sC =
        if colorize then "\x1b[31m" else "") ∧
    (status.state = "neutral" →
      (stateMarkerColor status.state).1 = "◦" ∧
      (checkPlaceholders status colorize).sC =
        if colorize then "\x1b[30m" else "") ∧
    (status.state = "pending" →
      (stateMarkerColor status.state).1 = "●" ∧
      (checkPlaceholders status colorize).sC =
        if colorize then "\x1b[33m" else "") ∧
    (status.state ∉ severityList →
      (stateMarkerColor status.state).1 = "" ∧
      (checkPlaceholders status colorize).sC =
        if colorize then "\x1b[0m" else "") := by
  refine ⟨?_, ?_, ?_, ?_, ?_⟩
  · intro h
    simp only [checkPlaceholders, h]
    cases colorize <;> exact ⟨by decide, by decide⟩
  · intro h
    have hm : stateMarkerColor status.state = ("✖︎", 31) := by
      have hne : ¬ status.state = "success" := by
        rcases h with h | h | h | h | h <;> rw [h] <;> decide
      unfold stateMarkerColor
      rw [if_neg hne, if_pos h]
    refine ⟨by rw [hm], ?_⟩
    show (if colorize then ansiEscape (stateMarkerColor status.state).2
      else "") = _
    rw [hm]
    cases colorize <;> decide
  · intro h
    simp only [checkPlaceholders, h]
    cases colorize <;> exact ⟨by decide, by decide⟩
  · intro h
    simp only [checkPlaceholders, h]
    cases colorize <;> exact ⟨by decide, by decide⟩
  · intro h
    simp only [severityList, List.mem_cons, List.not_mem_nil, or_false,
      not_or] at h
    obtain ⟨h1, h2, h3, h4, h5, h6, h7, h8⟩ := h
    have hm : stateMarkerColor status.state = ("", 0) := by
      simp [stateMarkerColor, h1, h2, h3, h4, h5, h6, h7, h8]
    refine ⟨by rw [hm], ?_⟩
    show (if colorize then ansiEscape (stateMarkerColor status.state).2
      else "") = _
    rw [hm]
    cases colorize <;> decide

/-- Witness for C7 at a concrete input: a pending check with colorize
enabled gets the filled-circle glyph and the yellow escape. -/
theorem C7_marker_color_table_witness :
    (stateMarkerColor "pending").1 = "●" ∧
    (checkPlaceholders ⟨"pending", "ci", ""⟩ true).sC = "\x1b[33m" := by
  obtain ⟨h1, h2⟩ :=
    (C7_marker_color_table ⟨"pending", "ci", ""⟩ true).2.2.2.1 rfl
  exact ⟨h1, by simpa using h2⟩

/-- C8: the effective template is the user-supplied format verbatim when
non-empty; otherwise the built-in default is chosen solely by whether the
check's `targetUrl` is empty: without a URL the line is marker, reset,
tab, name; with a URL the name column is padded to `contextWidth` — the
maximum name length over all checks, 0 for an empty list — followed by a
tab and the URL.  The last conjunct ties the selection into the renderer:
each report entry pairs exactly this template with the check's
placeholders. -/
theorem C8_template_selection :
    (∀ (formatString stateMarker : String) (w : Nat) (url : String),
      formatString ≠ "" →
      effectiveFormat formatString stateMarker w url = formatString) ∧
    (∀ (stateMarker : String) (w : Nat),
      effectiveFormat "" stateMarker w "" =
        "%sC" ++ stateMarker ++ "%Creset\t%t\n") ∧
    (∀ (stateMarker : String) (w : Nat) (url : String), url ≠ "" →
      effectiveFormat "" stateMarker w url =
        "%sC" ++ stateMarker ++ "%Creset\t%<(" ++ toString w ++ ")%t\t%U\n") ∧
    (contextWidth [] = 0) ∧
    (∀ l : List CIStatus, ∀ c ∈ l, c.context.length ≤ contextWidth l) ∧
    (∀ l : List CIStatus, l ≠ [] →
      ∃ c ∈ l, contextWidth l = c.context.length) ∧
    (∀ (l : List CIStatus) (formatString : String) (colorize : Bool),
      (ciVerboseFormat l formatString colorize).1 =
        (sortedStatuses l).map (fun status =>
          (effectiveFormat formatString (stateMarkerColor status.state).1
            (contextWidth l) status.targetUrl,
           checkPlaceholders status colorize))) := by
  refine ⟨?_, ?_, ?_, rfl, contextWidth_le, contextWidth_mem, ?_⟩
  · intro formatString stateMarker w url h
    simp [effectiveFormat, h]
  · intro stateMarker w
    rfl
  · intro stateMarker w url h
    simp [effectiveFormat, h]
  · intro l formatString colorize
    rfl

/-- Witness for C8 at concrete inputs: a non-empty user format is used
verbatim, and the URL built-in carries the padded name column. -/
theorem C8_template_selection_witness :
    effectiveFormat "%S" "✔︎" 3 "http://x" = "%S" ∧
    effectiveFormat "" "✔︎" 3 "http://x" =
      "%sC✔︎%Creset\t%<(3)%t\t%U\n" ∧
    (∃ c ∈ ([⟨"failure", "ab", ""⟩, ⟨"success", "a", ""⟩] : List CIStatus),
      contextWidth [⟨"failure", "ab", ""⟩, ⟨"success", "a", ""⟩] =
        c.context.length) :=
  ⟨C8_template_selection.1 "%S" "✔︎" 3 "http://x" (by decide),
   (C8_template_selection.2.2.1 "✔︎" 3 "http://x" (by decide)).trans (by decide),
   C8_template_selection.2.2.2.2.2.1 _ (by decide)⟩

/-- C9: the overall state computed by the aggregation fold is either the
empty string or the state field of some element of the input sequence —
never a value absent from the input. -/
theorem C9_result_occurs_in_input (l : List CIStatus) :
    aggregateState l = "" ∨ ∃ c ∈ l, aggregateState l = c.state := by
  rcases l with _ | ⟨x, xs⟩
  · exact Or.inl rfl
  · have hagg : aggregateState (x :: xs) = (x :: xs).foldl aggStep "" := by
      simp [aggregateState]
    rcases foldl_aggStep_spec (x :: xs) "" with ⟨heq, _⟩ |
      ⟨l₁, c, l₂, hsplit, heq, _, _, _⟩
    · exact Or.inl (by rw [hagg, heq])
    · refine Or.inr ⟨c, ?_, by rw [hagg, heq]⟩
      rw [hsplit]
      exact List.mem_append_right _ (List.mem_cons_self _ _)

/-- C10: the aggregation fold is permutation-invariant in its result: any
permutation of the input yields the same overall state string (severity
ties among recognized states are the identical string, and unrecognized
states never displace the accumulator). -/
theorem C10_aggregate_perm_invariant (l₁ l₂ : List CIStatus)
    (h : l₁.Perm l₂) : aggregateState l₁ = aggregateState l₂ :=
  aggregateState_perm h

/-- Witness for C10 at a concrete input: swapping two checks leaves the
aggregate unchanged. -/
theorem C10_aggregate_perm_invariant_witness :
    ([⟨"success", "a", ""⟩, ⟨"pending", "b", ""⟩] : List CIStatus).Perm
      [⟨"pending", "b", ""⟩, ⟨"success", "a", ""⟩] ∧
    aggregateState [⟨"success", "a", ""⟩, ⟨"pending", "b", ""⟩] =
      aggregateState [⟨"pending", "b", ""⟩, ⟨"success", "a", ""⟩] :=
  ⟨List.Perm.swap _ _ _,
   C10_aggregate_perm_invariant _ _ (List.Perm.swap _ _ _)⟩

end CiStatusGo
